import Mathlib

/-
  Verification development for the compta-lmnp repository: a furnished-rental
  (LMNP) accounting application.  The repository under src contains the React
  frontend (pages, API client) and the product requirements document; the
  FastAPI backend engine (depreciation, deficit ledger, regime comparator)
  is not part of src, so those parts are modelled from the specification and
  each such definition carries a doc comment saying so.
  Monetary values are modelled as rationals.
-/

/-- Deductible expense row as declared in the frontend API module
(src/unnamed/part_007, interface Expense); only the fields used by the
expense totals are modelled. -/
structure Expense where
  amount : ℚ
  category : String
  deductible_pct : ℚ
deriving DecidableEq

/-- Net deductible amount of one expense: amount times deductible_pct over
100, the summand of the reduce on line 115 of src/unnamed/part_001. -/
def expenseNet (e : Expense) : ℚ := e.amount * e.deductible_pct / 100

/-- Total deductible expenses: the reduce on line 115 of src/unnamed/part_001. -/
def expensesTotal (es : List Expense) : ℚ :=
  es.foldl (fun s e => s + e.amount * e.deductible_pct / 100) 0

/-- Per-category record built by the reduce on lines 117 to 121 of
src/unnamed/part_001; the record is modelled as a total function from
category names to accumulated net amounts, absent keys mapping to 0. -/
def byCategory (es : List Expense) : String → ℚ :=
  es.foldl
    (fun acc e => fun c =>
      if c = e.category then acc c + e.amount * e.deductible_pct / 100 else acc c)
    (fun _ => 0)

/-- Net amount accumulated for one category, expressed as a filtered sum. -/
def categoryNet (es : List Expense) (c : String) : ℚ :=
  ((es.filter (fun e => e.category == c)).map expenseNet).sum

/-- Property creation form as validated by the zod schema on lines 13 to 28
of src/frontend/src/pages/Properties.tsx (the same schema appears in
src/unnamed/part_005); string fields are kept as strings, monetary fields
as rationals. -/
structure PropertyForm where
  name : String
  address : String
  acquisition_date : String
  total_price : ℚ
  land_value : ℚ
  building_value : ℚ
  furniture_value : ℚ
  acquisition_costs : ℚ
deriving DecidableEq

/-- Acceptance predicate of the zod schema: the nonempty checks on name
and acquisition_date, positivity of total_price, nonnegativity of the four
decomposition values, and the refine on line 26 which allows land plus
building plus furniture plus acquisition costs to exceed total_price by at
most 0.01. -/
def schemaAccepts (d : PropertyForm) : Bool :=
  !(d.name == "") &&
  !(d.acquisition_date == "") &&
  decide (0 < d.total_price) &&
  decide (0 ≤ d.land_value) &&
  decide (0 ≤ d.building_value) &&
  decide (0 ≤ d.furniture_value) &&
  decide (0 ≤ d.acquisition_costs) &&
  decide (d.land_value + d.building_value + d.furniture_value + d.acquisition_costs
            ≤ d.total_price + 1 / 100)

/-- Depreciable component kinds of the versioned fiscal constants
(src/PRD.md, section 6, depreciation.components); land is not a member. -/
def componentKinds : List String :=
  ["structure", "roof", "facade", "equipment", "furniture", "acquisition_costs"]

/-- Concrete form accepted by the schema although its depreciable
decomposition exceeds the total price by one cent. -/
def oneCentOverForm : PropertyForm :=
  ⟨"Studio", "42 rue Oberkampf", "2022-06-15", 100, 0, 100 + 1 / 100, 0, 0⟩

/-- Query parameters of the POST request built by depreciationApi.compute,
src/unnamed/part_007 lines 155 to 158. -/
structure ComputeParams where
  property_id : ℤ
  year : ℤ
  result_before_depreciation : ℚ
  previous_carried_over : ℚ
deriving DecidableEq

/-- Default value of the previousCarriedOver parameter of
depreciationApi.compute (src/unnamed/part_007 line 155). -/
def computePreviousCarriedOverDefault : ℚ := 0

/-- Request constructed by depreciationApi.compute
(src/unnamed/part_007 lines 155 to 158): the four arguments become the
path and query parameters of the POST request. -/
def depreciationApiCompute (propertyId year : ℤ)
    (resultBeforeDepreciation previousCarriedOver : ℚ) : ComputeParams :=
  ⟨propertyId, year, resultBeforeDepreciation, previousCarriedOver⟩

/-- Request issued by handleCompute in src/unnamed/part_003 lines 187 to
204: the call on line 194 passes only three arguments, so the fourth takes
the TypeScript default value zero. -/
def handleComputeRequest (selectedPropertyId selectedYear : ℤ)
    (resultBeforeDep : ℚ) : ComputeParams :=
  depreciationApiCompute selectedPropertyId selectedYear resultBeforeDep
    computePreviousCarriedOverDefault

/-- Modelled from the spec: calendar date record used by DateProration
(spec section 4.1); the backend proration module is not under src. -/
structure PlainDate where
  year : ℤ
  month : ℕ
  day : ℕ
deriving DecidableEq

/-- Modelled from the spec: Gregorian leap-year rule, required for the
day-exact, leap-year-aware fraction of spec section 4.1. -/
def isLeapYear (y : ℤ) : Bool :=
  (y % 4 == 0 && y % 100 != 0) || y % 400 == 0

/-- Modelled from the spec: number of days of a month, one-based, in a
leap or common year. -/
def daysInMonth (leap : Bool) (m : ℕ) : ℕ :=
  if m = 2 then (if leap then 29 else 28)
  else if m = 4 ∨ m = 6 ∨ m = 9 ∨ m = 11 then 30
  else 31

/-- Modelled from the spec: number of days of a calendar year. -/
def daysInYear (y : ℤ) : ℕ := if isLeapYear y then 366 else 365

/-- Modelled from the spec: one-based ordinal of a date inside its
calendar year, obtained by summing the lengths of the preceding months. -/
def dayOfYear (d : PlainDate) : ℕ :=
  (List.range (d.month - 1)).foldl
    (fun s m => s + daysInMonth (isLeapYear d.year) (m + 1)) 0 + d.day

/-- Modelled from the spec: DateProration (spec section 4.1), whose backend
module is not under src.  For the first fiscal year the fraction is the
day-exact share of the calendar year from the start date to December 31;
later years get the full fraction 1; a start date after the fiscal year
end yields 0. -/
def prorationFraction (fy : ℤ) (start : PlainDate) : ℚ :=
  if fy < start.year then 0
  else if start.year < fy then 1
  else ((daysInYear fy : ℚ) - (dayOfYear start : ℚ) + 1) / (daysInYear fy : ℚ)

/-- Modelled from the spec: symmetric proration of the disposal year (spec
section 4.1): full year before the disposal year, day-exact share up to
the disposal date in the disposal year, 0 afterwards. -/
def disposalFraction (fy : ℤ) (disposal : PlainDate) : ℚ :=
  if fy < disposal.year then 1
  else if disposal.year < fy then 0
  else (dayOfYear disposal : ℚ) / (daysInYear fy : ℚ)

/-- Modelled from the spec: a depreciation component (spec sections 3 and
4.2): base value, linear duration in years, start date and optional
disposal date; the backend model module is not under src. -/
structure DComponent where
  base_value : ℚ
  duration_years : ℤ
  start_date : PlainDate
  disposal_date : Option PlainDate
deriving DecidableEq

/-- Modelled from the spec: ComponentDepreciationEngine (spec section 4.2),
whose backend module is not under src: theoretical annual amount base over
duration, scaled by the first-year proration fraction and, when a disposal
date exists, by the disposal-year fraction; all other years are unscaled. -/
def annualAmount (c : DComponent) (fy : ℤ) : ℚ :=
  c.base_value / (c.duration_years : ℚ) * prorationFraction fy c.start_date *
    (match c.disposal_date with
     | none => 1
     | some d => disposalFraction fy d)

/-- Computed depreciation record for one component and one fiscal year;
the column names follow the depreciations table of src/PRD.md lines 163 to
175 and the DepreciationPlan interface of src/unnamed/part_007. -/
structure YearRecord where
  annual_amount : ℚ
  deductible_amount : ℚ
  carried_over : ℚ
deriving DecidableEq

/-- Modelled from the spec: CapAndCarryoverPolicy deductible total (spec
section 4.3), whose backend module is not under src: the minimum of the
summed per-component amounts and the nonnegative part of the result before
depreciation.  Each entry of the amounts list is one component theoretical
amount, prior carryover already added per spec section 4.3. -/
def capDeductibleTotal (amounts : List ℚ) (resultBeforeDep : ℚ) : ℚ :=
  min amounts.sum (max resultBeforeDep 0)

/-- Modelled from the spec: proportional allocation of the capped total
(spec section 4.3): every component receives the same deductible share of
its amount, the shortfall being borne pro rata; the carried amount is the
remainder of its own amount. -/
def allocateRecords (amounts : List ℚ) (resultBeforeDep : ℚ) : List YearRecord :=
  amounts.map (fun a =>
    let d := if amounts.sum = 0 then 0
             else a * capDeductibleTotal amounts resultBeforeDep / amounts.sum
    ⟨a, d, a - d⟩)

/-- Property-level deductible total of a record list. -/
def deductibleTotal (rs : List YearRecord) : ℚ :=
  (rs.map YearRecord.deductible_amount).sum

/-- Property-level carried-over total of a record list. -/
def carriedTotal (rs : List YearRecord) : ℚ :=
  (rs.map YearRecord.carried_over).sum

/-- Key of a stored depreciation record: component kind and fiscal year,
per the depreciations table of src/PRD.md. -/
abbrev RecordKey : Type := String × ℤ

/-- Modelled from the spec: the persisted store of records keyed by
component and fiscal year (spec section 3): recomputation replaces the row
for a key instead of inserting a second one. -/
def upsertRecord (key : RecordKey) (r0 : YearRecord)
    (store : List (RecordKey × YearRecord)) : List (RecordKey × YearRecord) :=
  (key, r0) :: store.filter (fun kr => decide (kr.1 ≠ key))

/-- Modelled from the spec: error taxonomy of spec section 7 restricted to
the component validation condition. -/
inductive EngineError
  | invalidComponent
deriving DecidableEq

/-- Modelled from the spec: input validation of the engine (spec sections
4.2 and 7), whose backend module is not under src: the computation fails
with InvalidComponent when the duration is nonpositive or the base value
negative, and never coerces such inputs to defaults. -/
def computeComponent (c : DComponent) (fy : ℤ) : Except EngineError ℚ :=
  if c.duration_years ≤ 0 ∨ c.base_value < 0 then
    Except.error EngineError.invalidComponent
  else Except.ok (annualAmount c fy)

/-- Modelled from the spec: one storing step of the engine: on success the
theoretical record for the key replaces any previous row, on a validation
failure the error is surfaced and the store is left unchanged (spec
section 7). -/
def engineStep (key : RecordKey) (c : DComponent) (fy : ℤ)
    (store : List (RecordKey × YearRecord)) :
    List (RecordKey × YearRecord) × Option EngineError :=
  match computeComponent c fy with
  | Except.error e => (store, some e)
  | Except.ok a => (upsertRecord key ⟨a, a, 0⟩ store, none)

/-- Acquisition date of the reference fixture property
(src/PRD.md, sample_dataset). -/
def fixtureStart : PlainDate := ⟨2022, 6, 15⟩

/-- Theoretical amounts of the three fixture components for fiscal year
2025: building 126000 over 50 years, furniture 18000 over 10 years,
acquisition costs 9000 over 10 years, all started 2022-06-15. -/
def fixtureAmounts : List ℚ :=
  [annualAmount ⟨126000, 50, fixtureStart, none⟩ 2025,
   annualAmount ⟨18000, 10, fixtureStart, none⟩ 2025,
   annualAmount ⟨9000, 10, fixtureStart, none⟩ 2025]

/-- Result before depreciation of the fixture year: revenue 10600 minus
expenses 6050 (src/PRD.md, expected_results). -/
def fixtureResultBeforeDep : ℚ := 10600 - 6050

/-- Regime identifiers used by the comparison result
(src/unnamed/part_007, interface ComparisonResult, recommended_regime). -/
inductive Regime
  | micro_bic
  | reel
deriving DecidableEq

/-- Regime profile selected by property-type classification: threshold and
flat-allowance percentage (spec section 4.6 and the micro_bic block of the
fiscal constants in src/PRD.md section 6). -/
structure RegimeProfile where
  threshold : ℚ
  abatement_pct : ℚ
deriving DecidableEq

/-- Micro-BIC side of the comparison result
(src/unnamed/part_007 line 107). -/
structure MicroBicSide where
  threshold : ℚ
  abatement_pct : ℚ
  taxable_base : ℚ
deriving DecidableEq

/-- Real-regime side of the comparison result
(src/unnamed/part_007 line 108). -/
structure ReelSide where
  taxable_base : ℚ
  deficit : ℚ
deriving DecidableEq

/-- Comparison result shaped after the ComparisonResult interface of
src/unnamed/part_007 lines 103 to 113, restricted to the computed fields. -/
structure ComparisonOutcome where
  total_revenue : ℚ
  micro_bic : MicroBicSide
  reel : ReelSide
  recommended_regime : Regime
  above_threshold : Bool
deriving DecidableEq

/-- Modelled from the spec: RegimeComparator (spec section 4.6), whose
backend module is not under src.  The micro-BIC taxable base is revenue
times one minus the allowance; the real base is the nonnegative part of
the fiscal result; the recommendation takes the strictly lower base and
falls back to the real regime on ties; above the threshold the flag is set
but the notional micro-BIC base is still returned. -/
def compareRegimes (revenue : ℚ) (p : RegimeProfile) (fiscalResult : ℚ) :
    ComparisonOutcome :=
  let microBase := revenue * (1 - p.abatement_pct)
  let reelBase := max fiscalResult 0
  ⟨revenue,
    ⟨p.threshold, p.abatement_pct, microBase⟩,
    ⟨reelBase, max (-fiscalResult) 0⟩,
    (if microBase < reelBase then Regime.micro_bic else Regime.reel),
    decide (p.threshold < revenue)⟩

/-- Modelled from the spec: one operating-deficit tranche of the
DeficitCarryoverLedger (spec sections 3 and 4.4; columns follow the
deficit_carryovers table of src/PRD.md lines 178 to 185). -/
structure Tranche where
  origin_year : ℤ
  amount : ℚ
  remaining : ℚ
  exhausted_year : Option ℤ
deriving DecidableEq

/-- Modelled from the spec: consumption of a single tranche (spec section
4.4): an exhausted tranche is skipped; otherwise the available amount
reduces the remaining balance, and the exhausted year is recorded exactly
when the balance reaches zero. -/
def consumeOne (year : ℤ) (avail : ℚ) (t : Tranche) : Tranche :=
  if t.remaining ≤ 0 then t
  else
    Tranche.mk t.origin_year t.amount (t.remaining - min avail t.remaining)
      (if t.remaining - min avail t.remaining = 0 then some year else t.exhausted_year)

/-- Modelled from the spec: amount still available after consuming one
tranche. -/
def availAfterOne (avail : ℚ) (t : Tranche) : ℚ :=
  if t.remaining ≤ 0 then avail else avail - min avail t.remaining

/-- Modelled from the spec: oldest-first consumption of the ledger (spec
section 4.4), whose backend module is not under src: the tranche list is
kept in ascending origin-year order and consumed front to back. -/
def consumeTranches (year : ℤ) (avail : ℚ) : List Tranche → List Tranche
  | [] => []
  | t :: ts => consumeOne year avail t :: consumeTranches year (availAfterOne avail t) ts

/-- Amount still available when the tranche at the given position is
reached during consumption. -/
def availBefore (avail : ℚ) : List Tranche → ℕ → ℚ
  | _, 0 => avail
  | [], _ + 1 => avail
  | t :: ts, i + 1 => availBefore (availAfterOne avail t) ts i

/-- Modelled from the spec: the yearly ledger transition (spec section
4.4): a negative result before depreciation opens a new tranche for that
year; a nonnegative one is consumed against the open tranches oldest
first. -/
def ledgerStep (year : ℤ) (resultBeforeDep : ℚ) (ts : List Tranche) : List Tranche :=
  if resultBeforeDep < 0 then
    ts ++ [⟨year, -resultBeforeDep, -resultBeforeDep, none⟩]
  else consumeTranches year resultBeforeDep ts

/-- Two-tranche ledger used to instantiate the ledger theorem. -/
def sampleLedger : List Tranche :=
  [⟨2024, 80, 80, none⟩, ⟨2025, 50, 50, none⟩]

lemma expensesTotal_aux (es : List Expense) (s : ℚ) :
    es.foldl (fun s e => s + e.amount * e.deductible_pct / 100) s
      = s + (es.map expenseNet).sum := by
  induction es generalizing s with
  | nil => simp
  | cons e es ih => simp [List.foldl_cons, ih, expenseNet]; ring

lemma expensesTotal_eq_sum (es : List Expense) :
    expensesTotal es = (es.map expenseNet).sum := by
  simpa using expensesTotal_aux es 0

lemma categoryNet_cons (e : Expense) (es : List Expense) (c : String) :
    categoryNet (e :: es) c
      = (if c = e.category then expenseNet e else 0) + categoryNet es c := by
  by_cases h : e.category = c
  · simp [categoryNet, List.filter_cons, h]
  · have h2 : ¬(c = e.category) := fun hc => h hc.symm
    simp [categoryNet, List.filter_cons, h, h2]

lemma byCategory_aux (es : List Expense) (acc : String → ℚ) (c : String) :
    es.foldl
      (fun acc e => fun c =>
        if c = e.category then acc c + e.amount * e.deductible_pct / 100 else acc c)
      acc c
      = acc c + categoryNet es c := by
  induction es generalizing acc with
  | nil => simp [categoryNet]
  | cons e es ih =>
      rw [List.foldl_cons, ih, categoryNet_cons]
      by_cases h : c = e.category
      · simp only [if_pos h, expenseNet]
        ring
      · simp only [if_neg h]
        ring

lemma byCategory_eq (es : List Expense) (c : String) :
    byCategory es c = categoryNet es c := by
  have h := byCategory_aux es (fun _ => 0) c
  rw [byCategory, h]
  ring

lemma sum_categoryNet (es : List Expense) (cats : Finset String)
    (h : ∀ e ∈ es, e.category ∈ cats) :
    ∑ c ∈ cats, categoryNet es c = (es.map expenseNet).sum := by
  induction es with
  | nil => simp [categoryNet]
  | cons e es ih =>
      have he : e.category ∈ cats := h e (List.mem_cons_self e es)
      have hh : ∀ x ∈ es, x.category ∈ cats := fun x hx => h x (List.mem_cons_of_mem e hx)
      calc ∑ c ∈ cats, categoryNet (e :: es) c
          = ∑ c ∈ cats, ((if c = e.category then expenseNet e else 0) + categoryNet es c) := by
            refine Finset.sum_congr rfl fun c _ => ?_
            exact categoryNet_cons e es c
        _ = (∑ c ∈ cats, if c = e.category then expenseNet e else 0)
              + ∑ c ∈ cats, categoryNet es c := Finset.sum_add_distrib
        _ = expenseNet e + (es.map expenseNet).sum := by
            rw [ih hh, Finset.sum_ite_eq' cats e.category (fun _ => expenseNet e), if_pos he]
        _ = ((e :: es).map expenseNet).sum := by simp

/-- C10: the total deductible expense amount is the sum of each amount
weighted by its deductibility percentage, and the per-category subtotals
sum back to exactly that total: grouping by category is a homomorphism for
the weighted sum.  An expense with deductible_pct below 100 contributes
only its weighted fraction. -/
theorem claim_C10_expense_grouping (es : List Expense) :
    expensesTotal es = (es.map (fun e => e.amount * e.deductible_pct / 100)).sum ∧
    ∑ c ∈ (es.map Expense.category).toFinset, byCategory es c = expensesTotal es := by
  constructor
  · simpa [expenseNet] using expensesTotal_eq_sum es
  · have h : ∀ e ∈ es, e.category ∈ (es.map Expense.category).toFinset := by
      intro e he
      simp only [List.mem_toFinset, List.mem_map]
      exact ⟨e, he, rfl⟩
    calc ∑ c ∈ (es.map Expense.category).toFinset, byCategory es c
        = ∑ c ∈ (es.map Expense.category).toFinset, categoryNet es c := by
          refine Finset.sum_congr rfl fun c _ => byCategory_eq es c
      _ = (es.map expenseNet).sum := sum_categoryNet es _ h
      _ = expensesTotal es := (expensesTotal_eq_sum es).symm

/-- C8 counterexample: the zod refine tolerates an excess of 0.01, so a
form whose building value alone exceeds the total price by one cent is
accepted, refuting the claim that the component sum never exceeds the
total acquisition value. -/
theorem claim_C8_counterexample :
    schemaAccepts oneCentOverForm = true ∧
    oneCentOverForm.total_price
      < oneCentOverForm.building_value + oneCentOverForm.furniture_value
          + oneCentOverForm.acquisition_costs := by
  constructor
  · simp only [schemaAccepts, oneCentOverForm, Bool.and_eq_true, decide_eq_true_eq]
    norm_num
    exact ⟨by decide, by decide⟩
  · show (100 : ℚ) < 100 + 1 / 100 + 0 + 0
    norm_num

/-- C8 amended: any form accepted by the schema has its component sum
(building, furniture, acquisition costs, land excluded) bounded by
total_price plus the 0.01 tolerance of the refine, and land is never a
depreciable component kind. -/
theorem claim_C8_component_sum_bound (d : PropertyForm)
    (h : schemaAccepts d = true) :
    d.building_value + d.furniture_value + d.acquisition_costs
        ≤ d.total_price + 1 / 100 ∧
    "land" ∉ componentKinds := by
  constructor
  · simp only [schemaAccepts, Bool.and_eq_true, decide_eq_true_eq] at h
    obtain ⟨⟨⟨⟨⟨⟨⟨-, -⟩, -⟩, hland⟩, -⟩, -⟩, -⟩, hsum⟩ := h
    linarith
  · decide

/-- C8 witness: the reference fixture property (total 180000, land 27000,
building 126000, furniture 18000, costs 9000) is accepted and satisfies
the amended bound. -/
theorem claim_C8_witness :
    schemaAccepts
        ⟨"Studio Oberkampf", "42 rue Oberkampf", "2022-06-15",
          180000, 27000, 126000, 18000, 9000⟩ = true ∧
    ((126000 : ℚ) + 18000 + 9000 ≤ 180000 + 1 / 100 ∧ "land" ∉ componentKinds) :=
  ⟨by simp only [schemaAccepts, Bool.and_eq_true, decide_eq_true_eq]
      norm_num
      exact ⟨by decide, by decide⟩,
    claim_C8_component_sum_bound
      ⟨"Studio Oberkampf", "42 rue Oberkampf", "2022-06-15",
        180000, 27000, 126000, 18000, 9000⟩
      (by simp only [schemaAccepts, Bool.and_eq_true, decide_eq_true_eq]
          norm_num
          exact ⟨by decide, by decide⟩)⟩

/-- C2: the only caller of the depreciation computation in the repository,
handleCompute, always sends previous_carried_over equal to zero: the
computation for year N never receives the prior years carried-over amount,
contradicting the claim. -/
theorem claim_C2_previous_carryover_constant_zero :
    ∀ (pid year : ℤ) (rbd : ℚ),
      (handleComputeRequest pid year rbd).previous_carried_over = 0 :=
  fun _ _ _ => rfl

lemma daysInYear_pos (y : ℤ) : 0 < daysInYear y := by
  unfold daysInYear
  split <;> norm_num

lemma daysInYear_cast_ne_zero (y : ℤ) : ((daysInYear y : ℚ)) ≠ 0 := by
  exact_mod_cast (daysInYear_pos y).ne'

lemma dayOfYear_jan1 (y : ℤ) : dayOfYear ⟨y, 1, 1⟩ = 1 := by
  simp [dayOfYear]

lemma prorationFraction_jan1 (fy : ℤ) : prorationFraction fy ⟨fy, 1, 1⟩ = 1 := by
  unfold prorationFraction
  rw [if_neg (lt_irrefl fy), if_neg (lt_irrefl fy), dayOfYear_jan1]
  rw [Nat.cast_one, sub_add_cancel]
  exact div_self (daysInYear_cast_ne_zero fy)

/-- C6: with a start date exactly on January 1 of the fiscal year the
proration fraction is exactly 1 and the theoretical annual depreciation is
exactly base value over duration; a component starting after the fiscal
year end contributes zero; any fiscal year strictly after the start year
(and, when a disposal date exists, strictly before its year) is not
prorated at all. -/
theorem claim_C6_date_proration (c : DComponent) (fy : ℤ)
    (hdisp : ∀ d, c.disposal_date = some d → fy < d.year) :
    (c.start_date = ⟨fy, 1, 1⟩ →
       prorationFraction fy c.start_date = 1 ∧
       annualAmount c fy = c.base_value / (c.duration_years : ℚ)) ∧
    (fy < c.start_date.year → annualAmount c fy = 0) ∧
    (c.start_date.year < fy →
       annualAmount c fy = c.base_value / (c.duration_years : ℚ)) := by
  have hd1 : (match c.disposal_date with
              | none => (1 : ℚ)
              | some d => disposalFraction fy d) = 1 := by
    cases hc : c.disposal_date with
    | none => rfl
    | some d =>
        have hlt := hdisp d hc
        simp [disposalFraction, if_pos hlt]
  refine ⟨?_, ?_, ?_⟩
  · intro hstart
    have hfrac : prorationFraction fy c.start_date = 1 := by
      rw [hstart]; exact prorationFraction_jan1 fy
    refine ⟨hfrac, ?_⟩
    rw [annualAmount, hfrac, hd1]
    ring
  · intro h
    rw [annualAmount, prorationFraction, if_pos h]
    ring
  · intro h
    have h2 : ¬ fy < c.start_date.year := not_lt_of_gt h
    rw [annualAmount, prorationFraction, if_neg h2, if_pos h, hd1]
    ring

/-- C6 witness: a component of 126000 over 50 years starting January 1 of
fiscal year 2025 with no disposal date satisfies the hypothesis and gets
the exact unprorated annual amount. -/
theorem claim_C6_witness :
    (∀ d, (⟨126000, 50, ⟨2025, 1, 1⟩, none⟩ : DComponent).disposal_date = some d
            → (2025 : ℤ) < d.year) ∧
    prorationFraction 2025 ⟨2025, 1, 1⟩ = 1 ∧
    annualAmount ⟨126000, 50, ⟨2025, 1, 1⟩, none⟩ 2025
      = (126000 : ℚ) / ((50 : ℤ) : ℚ) := by
  have hdisp : ∀ d, (⟨126000, 50, ⟨2025, 1, 1⟩, none⟩ : DComponent).disposal_date = some d
      → (2025 : ℤ) < d.year := by
    intro d hd
    cases hd
  have h := (claim_C6_date_proration ⟨126000, 50, ⟨2025, 1, 1⟩, none⟩ 2025 hdisp).1 rfl
  exact ⟨hdisp, h.1, h.2⟩

lemma allocate_map_deductible (amounts : List ℚ) (resultBeforeDep : ℚ) :
    (allocateRecords amounts resultBeforeDep).map YearRecord.deductible_amount
      = amounts.map (fun a =>
          if amounts.sum = 0 then 0
          else a * capDeductibleTotal amounts resultBeforeDep / amounts.sum) := by
  simp only [allocateRecords, List.map_map]
  rfl

lemma allocate_map_carried (amounts : List ℚ) (resultBeforeDep : ℚ) :
    (allocateRecords amounts resultBeforeDep).map YearRecord.carried_over
      = amounts.map (fun a =>
          a - (if amounts.sum = 0 then 0
               else a * capDeductibleTotal amounts resultBeforeDep / amounts.sum)) := by
  simp only [allocateRecords, List.map_map]
  rfl

lemma deductibleTotal_allocate (amounts : List ℚ) (resultBeforeDep : ℚ)
    (h : ∀ a ∈ amounts, 0 ≤ a) :
    deductibleTotal (allocateRecords amounts resultBeforeDep)
      = capDeductibleTotal amounts resultBeforeDep := by
  rw [deductibleTotal, allocate_map_deductible]
  by_cases h0 : amounts.sum = 0
  · have hz : (amounts.map (fun a =>
        if amounts.sum = 0 then 0
        else a * capDeductibleTotal amounts resultBeforeDep / amounts.sum)).sum = 0 := by
      apply List.sum_eq_zero
      intro x hx
      obtain ⟨a, _, rfl⟩ := List.mem_map.1 hx
      exact if_pos h0
    rw [hz, capDeductibleTotal, h0]
    exact (min_eq_left (le_max_right resultBeforeDep 0)).symm
  · have hne : amounts.sum ≠ 0 := h0
    calc (amounts.map (fun a =>
            if amounts.sum = 0 then 0
            else a * capDeductibleTotal amounts resultBeforeDep / amounts.sum)).sum
        = (amounts.map (fun a =>
            a * (capDeductibleTotal amounts resultBeforeDep / amounts.sum))).sum := by
          refine congrArg List.sum (List.map_congr_left fun a _ => ?_)
          rw [if_neg h0, mul_div_assoc]
      _ = amounts.sum * (capDeductibleTotal amounts resultBeforeDep / amounts.sum) := by
          rw [List.sum_map_mul_right amounts (fun a => a)
                (capDeductibleTotal amounts resultBeforeDep / amounts.sum)]
          simp
      _ = capDeductibleTotal amounts resultBeforeDep := by
          rw [mul_comm, div_mul_cancel₀ _ hne]

/-- C1: for arbitrary nonnegative component amounts, the deductible total
produced by the cap-and-carryover policy equals the minimum of the summed
theoretical amounts and the nonnegative part of the result before
depreciation; with a negative result before depreciation the deductible
total is exactly zero and the whole theoretical total carries forward. -/
theorem claim_C1_cap_policy (amounts : List ℚ) (resultBeforeDep : ℚ)
    (h : ∀ a ∈ amounts, 0 ≤ a) :
    deductibleTotal (allocateRecords amounts resultBeforeDep)
        = min amounts.sum (max resultBeforeDep 0) ∧
    (resultBeforeDep < 0 →
       deductibleTotal (allocateRecords amounts resultBeforeDep) = 0 ∧
       carriedTotal (allocateRecords amounts resultBeforeDep) = amounts.sum) := by
  have hmain := deductibleTotal_allocate amounts resultBeforeDep h
  rw [capDeductibleTotal] at hmain
  refine ⟨hmain, fun hneg => ?_⟩
  have hsum0 : 0 ≤ amounts.sum := List.sum_nonneg h
  have hmax : max resultBeforeDep 0 = 0 := max_eq_right hneg.le
  have hcap0 : capDeductibleTotal amounts resultBeforeDep = 0 := by
    rw [capDeductibleTotal, hmax]
    exact min_eq_right hsum0
  constructor
  · rw [hmain, hmax]
    exact min_eq_right hsum0
  · rw [carriedTotal, allocate_map_carried]
    have : ∀ a ∈ amounts,
        a - (if amounts.sum = 0 then 0
             else a * capDeductibleTotal amounts resultBeforeDep / amounts.sum) = a := by
      intro a _
      rw [hcap0]
      by_cases h0 : amounts.sum = 0
      · rw [if_pos h0, sub_zero]
      · rw [if_neg h0, mul_zero, zero_div, sub_zero]
    rw [List.map_congr_left this]
    simp

/-- C1 witness: instantiation at the fixture amounts 2520, 1800, 900 with
result before depreciation 4550. -/
theorem claim_C1_witness :
    (∀ a ∈ ([2520, 1800, 900] : List ℚ), 0 ≤ a) ∧
    deductibleTotal (allocateRecords [2520, 1800, 900] 4550)
      = min ([2520, 1800, 900] : List ℚ).sum (max 4550 0) := by
  have h : ∀ a ∈ ([2520, 1800, 900] : List ℚ), 0 ≤ a := by
    intro a ha
    simp only [List.mem_cons, List.not_mem_nil, or_false] at ha
    rcases ha with rfl | rfl | rfl <;> norm_num
  exact ⟨h, (claim_C1_cap_policy [2520, 1800, 900] 4550 h).1⟩

lemma fixtureAmounts_eval : fixtureAmounts = [2520, 1800, 900] := by
  unfold fixtureAmounts annualAmount prorationFraction fixtureStart
  norm_num

lemma fixtureAmounts_nonneg : ∀ a ∈ fixtureAmounts, 0 ≤ a := by
  rw [fixtureAmounts_eval]
  intro a ha
  simp only [List.mem_cons, List.not_mem_nil, or_false] at ha
  rcases ha with rfl | rfl | rfl <;> norm_num

/-- C3: on the reference fixture (building 126000 over 50 years, furniture
18000 over 10 years, acquisition costs 9000 over 10 years, acquired
2022-06-15, fiscal year 2025 with revenue 10600 and expenses 6050) the
engine produces theoretical amounts 2520, 1800 and 900 summing to 5220, a
capped deductible total of exactly 4550 allocated proportionally across
the three components, a fiscal result of 0 and a carried-over total of
670. -/
theorem claim_C3_reference_fixture :
    fixtureAmounts = [2520, 1800, 900] ∧
    fixtureAmounts.sum = 5220 ∧
    deductibleTotal (allocateRecords fixtureAmounts fixtureResultBeforeDep) = 4550 ∧
    (allocateRecords fixtureAmounts fixtureResultBeforeDep).map
        YearRecord.deductible_amount
      = [2520 * 4550 / 5220, 1800 * 4550 / 5220, 900 * 4550 / 5220] ∧
    fixtureResultBeforeDep
        - deductibleTotal (allocateRecords fixtureAmounts fixtureResultBeforeDep) = 0 ∧
    carriedTotal (allocateRecords fixtureAmounts fixtureResultBeforeDep) = 670 := by
  have hams := fixtureAmounts_eval
  have hsum : fixtureAmounts.sum = 5220 := by rw [hams]; norm_num
  have hrbd : fixtureResultBeforeDep = 4550 := by norm_num [fixtureResultBeforeDep]
  have hcap : capDeductibleTotal fixtureAmounts fixtureResultBeforeDep = 4550 := by
    rw [capDeductibleTotal, hsum, hrbd]
    rw [max_eq_left (by norm_num : (0 : ℚ) ≤ 4550)]
    exact min_eq_right (by norm_num)
  have hded : deductibleTotal (allocateRecords fixtureAmounts fixtureResultBeforeDep)
      = 4550 := by
    rw [deductibleTotal_allocate _ _ fixtureAmounts_nonneg, hcap]
  have hlist : (allocateRecords fixtureAmounts fixtureResultBeforeDep).map
      YearRecord.deductible_amount
      = [2520 * 4550 / 5220, 1800 * 4550 / 5220, 900 * 4550 / 5220] := by
    rw [allocate_map_deductible, hcap, hsum]
    rw [hams]
    norm_num
  have hcar : carriedTotal (allocateRecords fixtureAmounts fixtureResultBeforeDep)
      = 670 := by
    rw [carriedTotal, allocate_map_carried, hcap, hsum]
    rw [hams]
    norm_num
  exact ⟨hams, hsum, hded, hlist, by rw [hded, hrbd]; norm_num, hcar⟩

/-- C7: every record produced by the allocation satisfies the invariants
deductible at most annual, carried equal to annual minus deductible and
nonnegative; and the keyed store keeps exactly one row per key: an upsert
leaves exactly one row for the written key and preserves key uniqueness. -/
theorem claim_C7_year_record_invariants (amounts : List ℚ) (resultBeforeDep : ℚ)
    (h : ∀ a ∈ amounts, 0 ≤ a) :
    (∀ r ∈ allocateRecords amounts resultBeforeDep,
        r.deductible_amount ≤ r.annual_amount ∧
        r.carried_over = r.annual_amount - r.deductible_amount ∧
        0 ≤ r.carried_over) ∧
    (∀ (store : List (RecordKey × YearRecord)) (key : RecordKey) (r0 : YearRecord),
        ((upsertRecord key r0 store).filter (fun kr => decide (kr.1 = key))).length = 1 ∧
        ((store.map Prod.fst).Nodup →
          ((upsertRecord key r0 store).map Prod.fst).Nodup)) := by
  constructor
  · intro r hr
    simp only [allocateRecords, List.mem_map] at hr
    obtain ⟨a, ha, rfl⟩ := hr
    have ha0 : 0 ≤ a := h a ha
    have hd_le : (if amounts.sum = 0 then 0
        else a * capDeductibleTotal amounts resultBeforeDep / amounts.sum) ≤ a := by
      by_cases h0 : amounts.sum = 0
      · rw [if_pos h0]; exact ha0
      · rw [if_neg h0]
        have htot : 0 < amounts.sum :=
          lt_of_le_of_ne (List.sum_nonneg h) (Ne.symm h0)
        have hcle : capDeductibleTotal amounts resultBeforeDep ≤ amounts.sum :=
          min_le_left _ _
        rw [div_le_iff₀ htot]
        exact mul_le_mul_of_nonneg_left hcle ha0
    exact ⟨hd_le, rfl, sub_nonneg.2 hd_le⟩
  · intro store key r0
    constructor
    · have hnil : (store.filter (fun kr => decide (kr.1 ≠ key))).filter
          (fun kr => decide (kr.1 = key)) = [] := by
        apply List.filter_eq_nil_iff.mpr
        intro kr hkr
        have hq := List.of_mem_filter hkr
        simp only [decide_eq_true_eq] at hq ⊢
        exact hq
      simp [upsertRecord, List.filter_cons, hnil]
    · intro hnodup
      rw [upsertRecord, List.map_cons]
      refine List.nodup_cons.mpr ⟨?_, ?_⟩
      · intro hmem
        obtain ⟨kr, hkr, hfst⟩ := List.mem_map.1 hmem
        have hq := List.of_mem_filter hkr
        simp only [decide_eq_true_eq] at hq
        exact hq hfst
      · have hsub : List.Sublist (store.filter (fun kr => decide (kr.1 ≠ key))) store :=
          List.filter_sublist store
        exact hnodup.sublist (List.Sublist.map Prod.fst hsub)

/-- C7 witness: instantiation at the fixture amounts and an empty store
with the key structure, 2025. -/
theorem claim_C7_witness :
    (∀ a ∈ ([2520, 1800, 900] : List ℚ), 0 ≤ a) ∧
    ((upsertRecord ("structure", 2025) ⟨2520, 2520, 0⟩ []).filter
        (fun kr => decide (kr.1 = (("structure", 2025) : RecordKey)))).length = 1 := by
  have h : ∀ a ∈ ([2520, 1800, 900] : List ℚ), 0 ≤ a := by
    intro a ha
    simp only [List.mem_cons, List.not_mem_nil, or_false] at ha
    rcases ha with rfl | rfl | rfl <;> norm_num
  exact ⟨h,
    ((claim_C7_year_record_invariants [2520, 1800, 900] 4550 h).2
      [] ("structure", 2025) ⟨2520, 2520, 0⟩).1⟩

/-- C9: the component computation fails with InvalidComponent exactly when
the duration is nonpositive or the base value negative, and on such a
failure the storing step leaves the record store unchanged and surfaces
the typed error instead of coercing the input. -/
theorem claim_C9_invalid_component (c : DComponent) (fy : ℤ)
    (key : RecordKey) (store : List (RecordKey × YearRecord)) :
    ((∃ e, computeComponent c fy = Except.error e) ↔
        (c.duration_years ≤ 0 ∨ c.base_value < 0)) ∧
    ((c.duration_years ≤ 0 ∨ c.base_value < 0) →
        (engineStep key c fy store).1 = store ∧
        (engineStep key c fy store).2 = some EngineError.invalidComponent) := by
  constructor
  · constructor
    · rintro ⟨e, he⟩
      by_contra hnot
      rw [computeComponent, if_neg hnot] at he
      exact Except.noConfusion he
    · intro hbad
      exact ⟨EngineError.invalidComponent, by rw [computeComponent, if_pos hbad]⟩
  · intro hbad
    rw [engineStep]
    rw [computeComponent, if_pos hbad]
    exact ⟨rfl, rfl⟩

/-- C9 witness: a component with duration 0 is rejected and the empty
store stays empty. -/
theorem claim_C9_witness :
    ((⟨100, 0, ⟨2025, 1, 1⟩, none⟩ : DComponent).duration_years ≤ 0 ∨
        (⟨100, 0, ⟨2025, 1, 1⟩, none⟩ : DComponent).base_value < 0) ∧
    (engineStep ("structure", 2025) ⟨100, 0, ⟨2025, 1, 1⟩, none⟩ 2025 []).1 = [] := by
  have hbad : (⟨100, 0, ⟨2025, 1, 1⟩, none⟩ : DComponent).duration_years ≤ 0 ∨
      (⟨100, 0, ⟨2025, 1, 1⟩, none⟩ : DComponent).base_value < 0 := Or.inl le_rfl
  exact ⟨hbad,
    ((claim_C9_invalid_component ⟨100, 0, ⟨2025, 1, 1⟩, none⟩ 2025
        ("structure", 2025) []).2 hbad).1⟩

/-- C4: the comparator computes the micro-BIC base as revenue times one
minus the allowance percentage and the real base as the nonnegative part
of the fiscal result; it recommends the regime with the strictly lower
base, the real regime on ties; above the threshold it sets the flag but
still returns the notional micro-BIC base. -/
theorem claim_C4_regime_comparator (revenue : ℚ) (p : RegimeProfile)
    (fiscalResult : ℚ) :
    (compareRegimes revenue p fiscalResult).micro_bic.taxable_base
        = revenue * (1 - p.abatement_pct) ∧
    (compareRegimes revenue p fiscalResult).reel.taxable_base = max fiscalResult 0 ∧
    ((compareRegimes revenue p fiscalResult).micro_bic.taxable_base
        < (compareRegimes revenue p fiscalResult).reel.taxable_base →
      (compareRegimes revenue p fiscalResult).recommended_regime = Regime.micro_bic) ∧
    ((compareRegimes revenue p fiscalResult).reel.taxable_base
        ≤ (compareRegimes revenue p fiscalResult).micro_bic.taxable_base →
      (compareRegimes revenue p fiscalResult).recommended_regime = Regime.reel) ∧
    ((compareRegimes revenue p fiscalResult).above_threshold = true
        ↔ p.threshold < revenue) := by
  refine ⟨rfl, rfl, ?_, ?_, ?_⟩
  · intro hlt
    simp only [compareRegimes] at hlt ⊢
    rw [if_pos hlt]
  · intro hle
    simp only [compareRegimes] at hle ⊢
    rw [if_neg (not_lt.mpr hle)]
  · simp [compareRegimes]

/-- C4 witness: revenue 10600 under the standard profile (threshold 77700,
allowance one half) against fiscal result 0: the real base 0 does not
exceed the micro-BIC base 5300, so the comparator recommends the real
regime. -/
theorem claim_C4_witness :
    ((compareRegimes 10600 ⟨77700, 1 / 2⟩ 0).reel.taxable_base
        ≤ (compareRegimes 10600 ⟨77700, 1 / 2⟩ 0).micro_bic.taxable_base) ∧
    (compareRegimes 10600 ⟨77700, 1 / 2⟩ 0).recommended_regime = Regime.reel := by
  have hle : (compareRegimes 10600 ⟨77700, 1 / 2⟩ 0).reel.taxable_base
      ≤ (compareRegimes 10600 ⟨77700, 1 / 2⟩ 0).micro_bic.taxable_base := by
    simp only [compareRegimes]
    norm_num
  exact ⟨hle, (claim_C4_regime_comparator 10600 ⟨77700, 1 / 2⟩ 0).2.2.2.1 hle⟩

lemma list_get_congr {α : Type} {l m : List α} (h : l = m) (i : ℕ)
    (hi : i < l.length) (hi2 : i < m.length) :
    l.get ⟨i, hi⟩ = m.get ⟨i, hi2⟩ := by
  subst h
  rfl

lemma tranche_get_mem (l : List Tranche) (i : ℕ) (h : i < l.length) :
    l.get ⟨i, h⟩ ∈ l := List.get_mem l i h

lemma availBefore_zero (avail : ℚ) (ts : List Tranche) :
    availBefore avail ts 0 = avail := by
  cases ts <;> rfl

lemma consumeTranches_length (year : ℤ) (avail : ℚ) (ts : List Tranche) :
    (consumeTranches year avail ts).length = ts.length := by
  induction ts generalizing avail with
  | nil => rfl
  | cons t ts ih => simp [consumeTranches, ih]

lemma consumeTranches_get (year : ℤ) (avail : ℚ) (ts : List Tranche) (i : ℕ)
    (hi : i < ts.length) (hi2 : i < (consumeTranches year avail ts).length) :
    (consumeTranches year avail ts).get ⟨i, hi2⟩
      = consumeOne year (availBefore avail ts i) (ts.get ⟨i, hi⟩) := by
  induction ts generalizing avail i with
  | nil => exact absurd hi (by simp)
  | cons t ts ih =>
      cases i with
      | zero => rfl
      | succ i =>
          exact ih (availAfterOne avail t) i (Nat.lt_of_succ_lt_succ hi)
            (by simpa [consumeTranches] using hi2)

lemma availAfterOne_nonneg (avail : ℚ) (t : Tranche) (h : 0 ≤ avail) :
    0 ≤ availAfterOne avail t := by
  rw [availAfterOne]
  split
  · exact h
  · have h1 : min avail t.remaining ≤ avail := min_le_left _ _
    linarith

lemma availAfterOne_le (avail : ℚ) (t : Tranche) (h : 0 ≤ avail) :
    availAfterOne avail t ≤ avail := by
  rw [availAfterOne]
  split
  · exact le_rfl
  · rename_i hr
    have h1 : 0 ≤ min avail t.remaining := le_min h (le_of_lt (not_le.1 hr))
    linarith

lemma availBefore_nonneg (avail : ℚ) (ts : List Tranche) (i : ℕ) (h : 0 ≤ avail) :
    0 ≤ availBefore avail ts i := by
  induction ts generalizing avail i with
  | nil =>
      cases i with
      | zero => exact h
      | succ j => exact h
  | cons t ts ih =>
      cases i with
      | zero => exact h
      | succ j => exact ih (availAfterOne avail t) j (availAfterOne_nonneg _ _ h)

lemma availBefore_antitone (avail : ℚ) (ts : List Tranche) (i j : ℕ)
    (hij : j ≤ i) (h : 0 ≤ avail) :
    availBefore avail ts i ≤ availBefore avail ts j := by
  induction ts generalizing avail i j with
  | nil =>
      have hi : availBefore avail [] i = avail := by cases i <;> rfl
      have hj : availBefore avail [] j = avail := by cases j <;> rfl
      rw [hi, hj]
  | cons t ts ih =>
      cases j with
      | zero =>
          cases i with
          | zero => exact le_rfl
          | succ i2 =>
              calc availBefore avail (t :: ts) (i2 + 1)
                  = availBefore (availAfterOne avail t) ts i2 := rfl
                _ ≤ availBefore (availAfterOne avail t) ts 0 :=
                    ih _ i2 0 (Nat.zero_le _) (availAfterOne_nonneg _ _ h)
                _ = availAfterOne avail t := availBefore_zero _ _
                _ ≤ avail := availAfterOne_le _ _ h
      | succ j2 =>
          cases i with
          | zero => exact absurd hij (by omega)
          | succ i2 =>
              exact ih (availAfterOne avail t) i2 j2 (Nat.le_of_succ_le_succ hij)
                (availAfterOne_nonneg _ _ h)

lemma availBefore_succ (avail : ℚ) (ts : List Tranche) (j : ℕ) (hj : j < ts.length) :
    availBefore avail ts (j + 1)
      = availAfterOne (availBefore avail ts j) (ts.get ⟨j, hj⟩) := by
  induction ts generalizing avail j with
  | nil => exact absurd hj (by simp)
  | cons t ts ih =>
      cases j with
      | zero =>
          show availBefore (availAfterOne avail t) ts 0
              = availAfterOne (availBefore avail (t :: ts) 0) ((t :: ts).get ⟨0, hj⟩)
          rw [availBefore_zero, availBefore_zero]
          rfl
      | succ j2 => exact ih (availAfterOne avail t) j2 (Nat.lt_of_succ_lt_succ hj)

lemma consumeOne_remaining_le (year : ℤ) (avail : ℚ) (t : Tranche) (h : 0 ≤ avail) :
    (consumeOne year avail t).remaining ≤ t.remaining := by
  rw [consumeOne]
  split
  · exact le_rfl
  · rename_i hr
    show t.remaining - min avail t.remaining ≤ t.remaining
    have h1 : 0 ≤ min avail t.remaining := le_min h (le_of_lt (not_le.1 hr))
    linarith

lemma consumeOne_decrease_pos (year : ℤ) (avail : ℚ) (t : Tranche)
    (hdec : (consumeOne year avail t).remaining < t.remaining) :
    0 < avail := by
  rw [consumeOne] at hdec
  split at hdec
  · exact absurd hdec (lt_irrefl _)
  · have hdec2 : t.remaining - min avail t.remaining < t.remaining := hdec
    have h1 : 0 < min avail t.remaining := by linarith
    exact (lt_min_iff.1 h1).1

lemma consumeOne_zero_of_after_pos (year : ℤ) (avail : ℚ) (t : Tranche)
    (hr : 0 ≤ t.remaining) (hpos : 0 < availAfterOne avail t) :
    (consumeOne year avail t).remaining = 0 := by
  rw [availAfterOne] at hpos
  by_cases h0 : t.remaining ≤ 0
  · rw [consumeOne, if_pos h0]
    exact le_antisymm h0 hr
  · rw [if_neg h0] at hpos
    rw [consumeOne, if_neg h0]
    show t.remaining - min avail t.remaining = 0
    rcases min_choice avail t.remaining with hmin | hmin
    · rw [hmin, sub_self] at hpos
      exact absurd hpos (lt_irrefl 0)
    · rw [hmin, sub_self]

lemma consumeOne_exhausted_set (year : ℤ) (avail : ℚ) (t : Tranche)
    (h0 : 0 < t.remaining) (hz : (consumeOne year avail t).remaining = 0) :
    (consumeOne year avail t).exhausted_year = some year := by
  by_cases hr : t.remaining ≤ 0
  · exact absurd h0 (not_lt.2 hr)
  · rw [consumeOne, if_neg hr] at hz ⊢
    have hz2 : t.remaining - min avail t.remaining = 0 := hz
    show (if t.remaining - min avail t.remaining = 0 then some year
          else t.exhausted_year) = some year
    rw [if_pos hz2]

lemma consumeOne_skip (year : ℤ) (avail : ℚ) (t : Tranche)
    (h0 : t.remaining = 0) :
    consumeOne year avail t = t := by
  rw [consumeOne, if_pos (le_of_eq h0)]

lemma consumeOne_exhausted_unchanged (year : ℤ) (avail : ℚ) (t : Tranche)
    (hnz : (consumeOne year avail t).remaining ≠ 0) :
    (consumeOne year avail t).exhausted_year = t.exhausted_year := by
  by_cases hr : t.remaining ≤ 0
  · rw [consumeOne, if_pos hr]
  · rw [consumeOne, if_neg hr] at hnz ⊢
    have hnz2 : t.remaining - min avail t.remaining ≠ 0 := hnz
    show (if t.remaining - min avail t.remaining = 0 then some year
          else t.exhausted_year) = t.exhausted_year
    rw [if_neg hnz2]

lemma pairwise_origin_lt_pos (ts : List Tranche)
    (hs : ts.Pairwise (fun a b => a.origin_year < b.origin_year))
    (i j : ℕ) (hi : i < ts.length) (hj : j < ts.length)
    (hlt : (ts.get ⟨j, hj⟩).origin_year < (ts.get ⟨i, hi⟩).origin_year) :
    j < i := by
  by_contra hnot
  push_neg at hnot
  rcases Nat.lt_or_ge i j with hij | hij
  · have hp := (List.pairwise_iff_get.1 hs) ⟨i, hi⟩ ⟨j, hj⟩ hij
    exact absurd (hp.trans hlt) (lt_irrefl _)
  · have heq : i = j := le_antisymm hnot hij
    subst heq
    exact absurd hlt (lt_irrefl _)

/-- C5: one ledger transition from a well-formed state (nonnegative
balances, tranches strictly sorted by origin year): every remaining
balance is monotonically non-increasing; if a tranche decreased then every
strictly older tranche ends the step with balance zero (strict oldest-first
consumption); the exhausted year is recorded exactly when a positive
balance reaches zero; a tranche with balance zero is left untouched; and
the exhausted year never changes while the balance is nonzero. -/
theorem claim_C5_deficit_ledger (year : ℤ) (resultBeforeDep : ℚ)
    (ts : List Tranche)
    (hwf : ∀ t ∈ ts, 0 ≤ t.remaining)
    (hs : ts.Pairwise (fun a b => a.origin_year < b.origin_year)) :
    ts.length ≤ (ledgerStep year resultBeforeDep ts).length ∧
    ∀ (i : ℕ) (hi : i < ts.length)
      (hi2 : i < (ledgerStep year resultBeforeDep ts).length),
      ((ledgerStep year resultBeforeDep ts).get ⟨i, hi2⟩).remaining
          ≤ (ts.get ⟨i, hi⟩).remaining ∧
      (((ledgerStep year resultBeforeDep ts).get ⟨i, hi2⟩).remaining
          < (ts.get ⟨i, hi⟩).remaining →
        ∀ (j : ℕ) (hj : j < ts.length)
          (hj2 : j < (ledgerStep year resultBeforeDep ts).length),
          (ts.get ⟨j, hj⟩).origin_year < (ts.get ⟨i, hi⟩).origin_year →
          ((ledgerStep year resultBeforeDep ts).get ⟨j, hj2⟩).remaining = 0) ∧
      (0 < (ts.get ⟨i, hi⟩).remaining →
        ((ledgerStep year resultBeforeDep ts).get ⟨i, hi2⟩).remaining = 0 →
        ((ledgerStep year resultBeforeDep ts).get ⟨i, hi2⟩).exhausted_year
          = some year) ∧
      ((ts.get ⟨i, hi⟩).remaining = 0 →
        (ledgerStep year resultBeforeDep ts).get ⟨i, hi2⟩ = ts.get ⟨i, hi⟩) ∧
      (((ledgerStep year resultBeforeDep ts).get ⟨i, hi2⟩).remaining ≠ 0 →
        ((ledgerStep year resultBeforeDep ts).get ⟨i, hi2⟩).exhausted_year
          = (ts.get ⟨i, hi⟩).exhausted_year) := by
  by_cases hneg : resultBeforeDep < 0
  · have hstep : ledgerStep year resultBeforeDep ts
        = ts ++ [⟨year, -resultBeforeDep, -resultBeforeDep, none⟩] := by
      rw [ledgerStep, if_pos hneg]
    have hlen : ts.length ≤ (ledgerStep year resultBeforeDep ts).length := by
      rw [hstep, List.length_append]
      omega
    refine ⟨hlen, fun i hi hi2 => ?_⟩
    have hget : ∀ (k : ℕ) (hk : k < ts.length)
        (hk2 : k < (ledgerStep year resultBeforeDep ts).length),
        (ledgerStep year resultBeforeDep ts).get ⟨k, hk2⟩ = ts.get ⟨k, hk⟩ := by
      intro k hk hk2
      have h2 : k < (ts ++ [(⟨year, -resultBeforeDep, -resultBeforeDep, none⟩ : Tranche)]).length := by
        rw [List.length_append]; omega
      rw [list_get_congr hstep k hk2 h2]
      exact List.get_append k hk
    rw [hget i hi hi2]
    refine ⟨le_rfl, ?_, ?_, fun _ => rfl, fun _ => rfl⟩
    · intro hdec
      exact absurd hdec (lt_irrefl _)
    · intro hpos hz
      rw [hz] at hpos
      exact absurd hpos (lt_irrefl 0)
  · have h0 : 0 ≤ resultBeforeDep := not_lt.1 hneg
    have hstep : ledgerStep year resultBeforeDep ts
        = consumeTranches year resultBeforeDep ts := by
      rw [ledgerStep, if_neg hneg]
    have hlen : (ledgerStep year resultBeforeDep ts).length = ts.length := by
      rw [hstep, consumeTranches_length]
    have key : ∀ (k : ℕ) (hk : k < ts.length)
        (hk2 : k < (ledgerStep year resultBeforeDep ts).length),
        (ledgerStep year resultBeforeDep ts).get ⟨k, hk2⟩
          = consumeOne year (availBefore resultBeforeDep ts k) (ts.get ⟨k, hk⟩) := by
      intro k hk hk2
      have hk3 : k < (consumeTranches year resultBeforeDep ts).length := by
        rw [consumeTranches_length]; exact hk
      rw [list_get_congr hstep k hk2 hk3]
      exact consumeTranches_get year resultBeforeDep ts k hk hk3
    refine ⟨le_of_eq hlen.symm, fun i hi hi2 => ?_⟩
    have hwfi : 0 ≤ (ts.get ⟨i, hi⟩).remaining := hwf _ (tranche_get_mem ts i hi)
    have havb0 : 0 ≤ availBefore resultBeforeDep ts i :=
      availBefore_nonneg _ _ _ h0
    rw [key i hi hi2]
    refine ⟨consumeOne_remaining_le year _ _ havb0, ?_, ?_, ?_, ?_⟩
    · intro hdec j hj hj2 hor
      have hjlt : j < i := pairwise_origin_lt_pos ts hs i j hi hj hor
      rw [key j hj hj2]
      apply consumeOne_zero_of_after_pos year _ _ (hwf _ (tranche_get_mem ts j hj))
      have hipos : 0 < availBefore resultBeforeDep ts i :=
        consumeOne_decrease_pos year _ _ hdec
      have hsucc : availBefore resultBeforeDep ts (j + 1)
          = availAfterOne (availBefore resultBeforeDep ts j) (ts.get ⟨j, hj⟩) :=
        availBefore_succ _ _ _ hj
      have hmono : availBefore resultBeforeDep ts i
          ≤ availBefore resultBeforeDep ts (j + 1) :=
        availBefore_antitone _ _ i (j + 1) (Nat.succ_le_of_lt hjlt) h0
      rw [← hsucc]
      exact lt_of_lt_of_le hipos hmono
    · intro hpos hz
      exact consumeOne_exhausted_set year _ _ hpos hz
    · intro hz
      exact consumeOne_skip year _ _ hz
    · intro hnz
      exact consumeOne_exhausted_unchanged year _ _ hnz

/-- C5 witness: a two-tranche ledger (origin years 2024 and 2025, balances
80 and 50) is well formed and sorted, and a consuming step for year 2026
with available result 100 keeps the ledger length. -/
theorem claim_C5_witness :
    (∀ t ∈ sampleLedger, 0 ≤ t.remaining) ∧
    sampleLedger.Pairwise (fun a b => a.origin_year < b.origin_year) ∧
    sampleLedger.length ≤ (ledgerStep 2026 100 sampleLedger).length := by
  have hwf : ∀ t ∈ sampleLedger, 0 ≤ t.remaining := by
    intro t ht
    simp only [sampleLedger, List.mem_cons, List.not_mem_nil, or_false] at ht
    rcases ht with rfl | rfl <;> norm_num
  have hs : sampleLedger.Pairwise (fun a b => a.origin_year < b.origin_year) := by
    simp only [sampleLedger, List.pairwise_cons, List.mem_cons,
      List.not_mem_nil, or_false, List.Pairwise.nil]
    refine ⟨fun b hb => ?_, by simp⟩
    rcases hb with rfl
    norm_num
  exact ⟨hwf, hs, (claim_C5_deficit_ledger 2026 100 sampleLedger hwf hs).1⟩
